import Mathlib

/-!
A shallow embedding of the `@electron/universal` merge tool (the TypeScript
sources under `src/`), together with theorems settling a list of claims about
its behaviour.  Pure string/byte computations are translated directly; the
external collaborators (SHA-256, `minimatch`, `lipo`, the `file` sniffing
tool) are threaded through as explicit function parameters, and the
filesystem-heavy orchestrator `makeUniversalApp` is embedded as a trace model
whose operations are classified by their target location.
-/

set_option maxHeartbeats 1000000

/-! ## String helpers

`String.prototype.includes`, `startsWith`, `endsWith` and `path.basename`
are modelled by structural recursion over the character list of a `String`,
so that every theorem below can be evaluated by `decide`. -/

/-- `charsLeadWith pat s` holds when `pat` is an initial segment of `s`. -/
def charsLeadWith : List Char → List Char → Bool
  | [], _ => true
  | _ :: _, [] => false
  | a :: as, b :: bs => a == b && charsLeadWith as bs

/-- `charsHaveSub pat s` holds when `pat` occurs contiguously inside `s`. -/
def charsHaveSub (pat : List Char) : List Char → Bool
  | [] => pat.isEmpty
  | c :: rest => charsLeadWith pat (c :: rest) || charsHaveSub pat rest

/-- JavaScript `s.includes(pat)`. -/
def strContainsSub (s pat : String) : Bool := charsHaveSub pat.data s.data

/-- JavaScript `s.startsWith(pat)`. -/
def strBeginsWith (s pat : String) : Bool := charsLeadWith pat.data s.data

/-- JavaScript `s.endsWith(pat)`. -/
def strFinishesWith (s pat : String) : Bool :=
  charsLeadWith pat.data.reverse s.data.reverse

/-- `path.basename`: the final `/`-separated segment of a path. -/
def baseName (p : String) : String :=
  ⟨(p.data.reverse.takeWhile (fun c => c ≠ '/')).reverse⟩

/-- Strict lexicographic comparison of character lists by code point. -/
def charsLt : List Char → List Char → Bool
  | [], [] => false
  | [], _ :: _ => true
  | _ :: _, [] => false
  | a :: as, b :: bs =>
    if a.toNat < b.toNat then true
    else if b.toNat < a.toNat then false
    else charsLt as bs

/-- A total order on strings (lexicographic on code points), standing in for
`String.prototype.localeCompare` in the deterministic sort of
`computeIntegrityData`. -/
def strLe (a b : String) : Bool := !(charsLt b.data a.data)

/-! ## File classification (src/file-utils.ts) -/

/-- `AppFileType` from src/file-utils.ts (lines 7-13). -/
inductive AppFileType
  | MACHO
  | PLAIN
  | INFO_PLIST
  | SNAPSHOT
  | APP_CODE
deriving DecidableEq

/-- `AppFile` from src/file-utils.ts (lines 15-18). -/
structure AppFile where
  relativePath : String
  type : AppFileType
deriving DecidableEq

/-- A regular file reached by the traversal in `getAllAppFiles`, carrying the
output of the external `file`-sniffing tool (`getFileArch`) for it. -/
structure RegularFile where
  path : String
  fileOutput : String
deriving DecidableEq

/-- The per-file classification from `getAllAppFiles` in src/file-utils.ts
(lines 35-46), first match wins: `APP_CODE` when the path contains
`"app.asar"`; else `MACHO` when the sniffing tool's output starts with
`"Mach-O "`; else `SNAPSHOT` when the path ends in `".bin"`; else
`INFO_PLIST` when the base name is exactly `"Info.plist"`; else `PLAIN`. -/
def classifyFile (p : String) (fileOutput : String) : AppFileType :=
  if strContainsSub p "app.asar" then .APP_CODE
  else if strBeginsWith fileOutput "Mach-O " then .MACHO
  else if strFinishesWith p ".bin" then .SNAPSHOT
  else if baseName p == "Info.plist" then .INFO_PLIST
  else .PLAIN

/-- `getAllAppFiles` (src/file-utils.ts 24-63) restricted to its
classification behaviour: the traversal itself (symlink skipping, realpath
de-duplication) is abstracted into the pre-walked list of regular files. -/
def getAllAppFiles (files : List RegularFile) : List AppFile :=
  files.map (fun f => ⟨f.path, classifyFile f.path f.fileOutput⟩)

/-! ## Structural parity check (src/index.ts 76-77 and 121-143) -/

/-- `dupedFiles` from src/index.ts (lines 76-77): the files required to exist
in both bundles, i.e. everything except `SNAPSHOT` and `APP_CODE`. -/
def dupedFiles (files : List AppFile) : List AppFile :=
  files.filter (fun f => f.type != AppFileType.SNAPSHOT && f.type != AppFileType.APP_CODE)

/-- `files.some((f) => f.relativePath === p)`. -/
def hasRelPath (files : List AppFile) (p : String) : Bool :=
  files.any (fun f => f.relativePath == p)

/-- The `uniqueToX64` list of src/index.ts (lines 126-129). -/
def uniqueToX64 (x64Files arm64Files : List AppFile) : List String :=
  ((dupedFiles x64Files).filter (fun f => !hasRelPath arm64Files f.relativePath)).map
    (fun f => f.relativePath)

/-- The `uniqueToArm64` list of src/index.ts (lines 130-133). -/
def uniqueToArm64 (x64Files arm64Files : List AppFile) : List String :=
  ((dupedFiles arm64Files).filter (fun f => !hasRelPath x64Files f.relativePath)).map
    (fun f => f.relativePath)

/-- Whether the parity check of src/index.ts (line 134) aborts the merge. -/
def parityFails (x64Files arm64Files : List AppFile) : Bool :=
  uniqueToX64 x64Files arm64Files != [] || uniqueToArm64 x64Files arm64Files != []

/-- The parity stage (src/index.ts 121-143): on failure both one-sided path
lists are reported together with the error. -/
def checkParity (x64Files arm64Files : List AppFile) :
    Except (List String × List String) Unit :=
  if parityFails x64Files arm64Files then
    .error (uniqueToX64 x64Files arm64Files, uniqueToArm64 x64Files arm64Files)
  else .ok ()

/-! ## Mach-O magic numbers (src/asar-utils.ts 25-37, 311-313) -/

/-- `Buffer.prototype.readUInt32LE(0)` over a byte list. -/
def readUInt32LE (bytes : List Nat) : Nat :=
  bytes.getD 0 0 + 256 * bytes.getD 1 0 + 65536 * bytes.getD 2 0 +
    16777216 * bytes.getD 3 0

/-- `MACHO_MAGIC` (src/asar-utils.ts 26-32): thin 32- and 64-bit magic
numbers, in both byte orders. -/
def MACHO_MAGIC : List Nat := [0xfeedface, 0xcefaedfe, 0xfeedfacf, 0xcffaedfe]

/-- `MACHO_UNIVERSAL_MAGIC` (src/asar-utils.ts 34-37). -/
def MACHO_UNIVERSAL_MAGIC : List Nat := [0xcafebabe, 0xbebafeca]

/-- `isUniversalMachO` (src/asar-utils.ts, variant at the end of
src/integrity.ts lines 311-313): whether the first four bytes carry the
universal/fat magic number. -/
def isUniversalMachO (fileContent : List Nat) : Bool :=
  MACHO_UNIVERSAL_MAGIC.contains (readUInt32LE fileContent)

/-! ## The loose Mach-O merge step (src/index.ts 160-207)

One iteration of the `for (const machOFile of ...)` loop.  `readMachOHeader`
returns the first four bytes of a file, so `isUniversalMachO` applied to the
full content byte list computes the same value.  The external `sha` function
and the external `minimatch` are parameters `hashF` and `mm`. -/

/-- What one iteration of the Mach-O loop does with a pair of binaries. -/
inductive MachOAction
  | skipUniversal
  | skipSameCovered
  | errSameUncovered (relPath : String)
  | runLipo (relPath : String)
deriving DecidableEq

/-- The decision logic of src/index.ts lines 161-207 for one `MACHO`-typed
file: if both sides are already universal, skip; else if the two content
hashes agree, fail unless covered by `x64ArchFiles`; else invoke `lipo`. -/
def machOStep (mm : String → String → Bool) (hashF : List Nat → String)
    (x64ArchFiles : Option String) (relPath : String)
    (x64Content arm64Content : List Nat) : MachOAction :=
  if isUniversalMachO x64Content && isUniversalMachO arm64Content then
    .skipUniversal
  else if hashF x64Content == hashF arm64Content then
    match x64ArchFiles with
    | none => .errSameUncovered relPath
    | some pat =>
      if mm relPath pat then .skipSameCovered else .errSameUncovered relPath
  else .runLipo relPath

/-! ## Archive merging (src/asar-utils.ts 62-233) -/

/-- One manifest entry of a packed asar archive, as observed through the
`@electron/asar` interface used by src/asar-utils.ts: its normalized relative
path, whether it is a directory, its `unpacked` flag, and (for files) its
content bytes. -/
structure AsarEntry where
  path : String
  isDir : Bool
  unpacked : Bool
  content : List Nat
deriving DecidableEq

/-- An archive is its entry list in `asar.listPackage` order. -/
abbrev Archive := List AsarEntry

/-- Look up an entry by path. -/
def findEntry (a : Archive) (p : String) : Option AsarEntry :=
  a.find? (fun e => e.path == p)

/-- Whether the archive lists the path. -/
def hasPath (a : Archive) (p : String) : Bool :=
  a.any (fun e => e.path == p)

/-- The errors raised by `mergeASARs`. -/
inductive MergeError
  | uncovered (archive : String) (file : String)
  | nonMacho (file : String)
deriving DecidableEq

/-- `checkSingleArch` (src/asar-utils.ts 70-77): a file present in only one
archive must match the `singleArchFiles` allow-list, otherwise the merge
fails with an error naming the archive and the file. -/
def checkSingleArch (mm : String → String → Bool)
    (archive file : String) (allowList : Option String) : Except MergeError Unit :=
  match allowList with
  | none => .error (.uncovered archive file)
  | some al =>
    if mm file al then .ok () else .error (.uncovered archive file)

/-- Whether `checkSingleArch` lets the file through. -/
def coveredBy (mm : String → String → Bool) (allowList : Option String)
    (file : String) : Bool :=
  match allowList with
  | none => false
  | some al => mm file al

/-- The unique-file scan of src/asar-utils.ts lines 99-110 for one side:
every entry of `self` missing from `other` goes through `checkSingleArch`;
the surviving unique entries are collected in order. -/
def checkUniques (mm : String → String → Bool) (selfName : String)
    (allowList : Option String) (other : Archive) :
    List AsarEntry → Except MergeError (List AsarEntry)
  | [] => .ok []
  | e :: rest =>
    if hasPath other e.path then checkUniques mm selfName allowList other rest
    else
      match checkSingleArch mm selfName e.path allowList with
      | .error err => .error err
      | .ok _ =>
        (checkUniques mm selfName allowList other rest).map (e :: ·)

/-- The common-binding scan of src/asar-utils.ts lines 126-156: for every
non-directory entry present in both archives with differing content, skip it
when both sides carry the universal magic, fail when the x64 side does not
carry a thin Mach-O magic number, and otherwise record it for `lipo`. -/
def scanCommon (arm64 : Archive) : List AsarEntry → Except MergeError (List String)
  | [] => .ok []
  | e :: rest =>
    match findEntry arm64 e.path with
    | none => scanCommon arm64 rest
    | some a =>
      if e.isDir then scanCommon arm64 rest
      else if e.content == a.content then scanCommon arm64 rest
      else if isUniversalMachO e.content && isUniversalMachO a.content then
        scanCommon arm64 rest
      else if MACHO_MAGIC.contains (readUInt32LE e.content) then
        (scanCommon arm64 rest).map (e.path :: ·)
      else .error (.nonMacho e.path)

/-- The JavaScript object assignment `ordering[k] = v`: update the existing
key in place, or append a new one. -/
def orderingInsert (m : List (String × Bool)) (k : String) (v : Bool) :
    List (String × Bool) :=
  if m.any (fun kv => kv.1 == k) then
    m.map (fun kv => if kv.1 == k then (k, v) else kv)
  else m ++ [(k, v)]

/-- `buildUnpacked` inside `generateOrderingConfig` (src/asar-utils.ts
210-222): record, for every non-directory entry of the archive, its
`unpacked` flag under its path. -/
def buildUnpacked (a : Archive) (m : List (String × Bool)) : List (String × Bool) :=
  a.foldl (fun acc e => if e.isDir then acc else orderingInsert acc e.path e.unpacked) m

/-- `generateOrderingConfig` (src/asar-utils.ts 207-233): the ordering map is
built from the x64 listing and then the arm64 listing, in listing order. -/
def generateOrderingConfig (x64 arm64 : Archive) : List (String × Bool) :=
  buildUnpacked arm64 (buildUnpacked x64 [])

/-- The text written to `ordering.txt` (src/asar-utils.ts 227-231): one line
`path:{"unpack":flag}` per ordering entry. -/
def orderingData (x64 arm64 : Archive) : String :=
  (generateOrderingConfig x64 arm64).foldl
    (fun prev kv =>
      prev ++ kv.1 ++ ":\x7b\"unpack\":" ++ (if kv.2 then "true" else "false") ++ "\x7d\n")
    ""

/-- Lookup in the ordering map (first binding of the key). -/
def lookupOrd : List (String × Bool) → String → Option Bool
  | [], _ => none
  | kv :: rest, p => if kv.1 == p then some kv.2 else lookupOrd rest p

/-- Whether the ordering map carries the key. -/
def anyKey : List (String × Bool) → String → Bool
  | [], _ => false
  | kv :: rest, p => kv.1 == p || anyKey rest p

/-- The effect of one `lipo` invocation (src/asar-utils.ts 184-190) on one
entry of the extracted x64 tree: the entry at the binding's path gets the
fusion (parameter `lp`) of the arm64 content and its own content. -/
def lipoEntry (lp : List Nat → List Nat → List Nat) (arm64 : Archive)
    (b : String) (e : AsarEntry) : AsarEntry :=
  if e.path == b then
    match findEntry arm64 b with
    | some a => { e with content := lp a.content e.content }
    | none => e
  else e

/-- The `lipo` fusion loop of src/asar-utils.ts lines 184-190 over the
extracted x64 tree: each recorded binding's content is replaced in place. -/
def applyLipo (lp : List Nat → List Nat → List Nat) (arm64 : Archive)
    (tree : Archive) (bindings : List String) : Archive :=
  bindings.foldl (fun t b => t.map (lipoEntry lp arm64 b)) tree

/-- The observable outcome of a successful `mergeASARs`: the re-packed tree
(the extracted x64 scratch tree plus the copied arm64-unique entries, with
fused bindings), the list of `lipo` invocations, and the ordering manifest
passed to `createPackageWithOptions`. -/
structure MergeOut where
  output : Archive
  lipoCalls : List String
  ordering : List (String × Bool)
deriving DecidableEq

/-- `mergeASARs` (src/asar-utils.ts 79-200): check x64-unique entries, check
and collect arm64-unique entries, build the ordering manifest, scan common
entries for bindings, copy arm64-unique entries into the x64 scratch tree,
fuse every binding in place, and re-pack. -/
def mergeASARs (mm : String → String → Bool)
    (lipo : List Nat → List Nat → List Nat) (x64Name arm64Name : String)
    (x64 arm64 : Archive) (singleArchFiles : Option String) :
    Except MergeError MergeOut :=
  match checkUniques mm x64Name singleArchFiles arm64 x64 with
  | .error e => .error e
  | .ok _ =>
    match checkUniques mm arm64Name singleArchFiles x64 arm64 with
    | .error e => .error e
    | .ok arm64Unique =>
      let ordering := generateOrderingConfig x64 arm64
      match scanCommon arm64 x64 with
      | .error e => .error e
      | .ok bindings =>
        .ok ⟨applyLipo lipo arm64 (x64 ++ arm64Unique) bindings, bindings, ordering⟩

/-! ## Integrity computation (src/integrity.ts 57-85, src/asar-utils.ts 52-60) -/

/-- A regular file under the merged `Resources` tree, as seen by
`computeIntegrityData`: its path relative to `Resources`, the sniffing-tool
output used by classification, the raw asar manifest header bytes (meaningful
for archives), and the full content bytes of the file. -/
structure ResourceFile where
  relativePath : String
  fileOutput : String
  headerBytes : List Nat
  contentBytes : List Nat
deriving DecidableEq

/-- `{algorithm, hash}` as returned by `generateAsarIntegrity`
(src/asar-utils.ts 52-60). -/
structure HeaderHash where
  algorithm : String
  hash : String
deriving DecidableEq

/-- `generateAsarIntegrity` (src/asar-utils.ts 52-60): the SHA-256 hex digest
(`hashF`, the external crypto collaborator) of the archive's raw manifest
header bytes (`asar.getRawHeader(..).headerString`). -/
def generateAsarIntegrity (hashF : List Nat → String) (f : ResourceFile) : HeaderHash :=
  ⟨"SHA256", hashF f.headerBytes⟩

/-- Insertion into a list sorted by `strLe` on the first component. -/
def insertByKey (x : String × ResourceFile) :
    List (String × ResourceFile) → List (String × ResourceFile)
  | [] => [x]
  | y :: ys => if strLe x.1 y.1 then x :: y :: ys else y :: insertByKey x ys

/-- The `sort(([name1], [name2]) => name1.localeCompare(name2))` of
src/integrity.ts line 75, as an insertion sort. -/
def sortByKey : List (String × ResourceFile) → List (String × ResourceFile)
  | [] => []
  | x :: xs => insertByKey x (sortByKey xs)

/-- `computeIntegrityData` (src/integrity.ts 57-85): classify every file
under `Resources`, keep the `APP_CODE` entries, key them by
`path.join('Resources', relativePath)`, sort the keys, and record for each
one the value `sha(from)` — the SHA-256 hex digest of the FULL content bytes
of the archive file (src/integrity.ts line 78 hashes the file at the resolved
path via src/sha.ts, not its manifest header). -/
def computeIntegrityData (hashF : List Nat → String) (resources : List ResourceFile) :
    List (String × String) :=
  let asars := resources.filter
    (fun f => classifyFile f.relativePath f.fileOutput == AppFileType.APP_CODE)
  let keyed := asars.map (fun f => ("Resources/" ++ f.relativePath, f))
  (sortByKey keyed).map (fun e => (e.1, hashF e.2.contentBytes))

/-! ## Info.plist handling (src/index.ts 343-368, src/integrity.ts 23-55)

A parsed property list is modelled as the ordered key/value list produced by
`plist.parse`; `JSON.stringify` of such an object serializes the keys in
that order. -/

/-- The property-list key receiving the integrity map. -/
def integrityKey : String := "ElectronAsarIntegrity"

/-- The rest-destructuring `{ElectronAsarIntegrity: _, ...rest}`: the
document with every binding of the integrity key removed. -/
def removeKey (pl : List (String × String)) (k : String) : List (String × String) :=
  pl.filter (fun kv => kv.1 != k)

/-- `JSON.stringify` of a parsed plist object: a serialization that lists the
keys in document order. -/
def jsonOfPlist (pl : List (String × String)) : String :=
  "\x7b" ++ String.intercalate ","
    (pl.map (fun kv => "\"" ++ kv.1 ++ "\":" ++ kv.2)) ++ "\x7d"

/-- The equality test of src/index.ts line 354: the two plists, integrity key
stripped, are compared through their `JSON.stringify` serializations; any
difference raises the plist-mismatch error. -/
def plistsMismatch (x64Plist arm64Plist : List (String × String)) : Bool :=
  jsonOfPlist (removeKey x64Plist integrityKey) !=
    jsonOfPlist (removeKey arm64Plist integrityKey)

/-- The per-plist write of src/index.ts lines 360-367 (same logic in
src/integrity.ts lines 46-53): strip the old integrity key from the x64
plist; inject the computed integrity under the integrity key exactly when no
`infoPlistsToIgnore` pattern is given OR the relative path is accepted by
`minimatch` (parameter `mm`) against the pattern; then write the result. -/
def writtenPlist (mm : String → String → Bool) (infoPlistsToIgnore : Option String)
    (relPath : String) (x64Plist : List (String × String))
    (integrityValue : String) : List (String × String) :=
  let stripped := removeKey x64Plist integrityKey
  let inject : Bool :=
    match infoPlistsToIgnore with
    | none => true
    | some g => mm relPath g
  if inject then stripped ++ [(integrityKey, integrityValue)] else stripped

/-! ## The orchestrator as a trace model (src/index.ts 79-386)

`makeUniversalApp` is embedded as a function from an abstract run
configuration to the sequence of filesystem operations it performs, each
classified by its target location, together with the run outcome.  The
boolean fields of `RunParams` record which pipeline stage would succeed on
the given inputs; the trace follows the statement order of src/index.ts. -/

/-- Where a filesystem operation lands: one of the two read-only input
bundles, the final output path, the output path's parent directory, or the
scratch temporary directory. -/
inductive Loc
  | x64In
  | arm64In
  | outPath
  | outParent
  | tmpDir
deriving DecidableEq

/-- An abstract filesystem operation. -/
inductive FsOp
  | read (l : Loc)
  | write (l : Loc)
  | remove (l : Loc)
deriving DecidableEq

/-- The abstract configuration of one `makeUniversalApp` run. -/
structure RunParams where
  isDarwin : Bool
  pathsAbsolute : Bool
  outExists : Bool
  force : Bool
  modesMatch : Bool
  parityOk : Bool
  plainOk : Bool
  machoOk : Bool
  resourceOk : Bool
  plistOk : Bool
deriving DecidableEq

/-- Outcome of a run. -/
inductive RunOutcome
  | ok
  | errored (stage : String)
deriving DecidableEq

/-- Trace model of `makeUniversalApp` (src/index.ts 79-386), statement by
statement: platform and absolute-path validation (82-89, no filesystem
side effects on the modelled locations); the output-path check (91-101, with
`force` removing an existing output); `detectAsarMode` on both inputs
(103-111); `mkdtemp` (113); then inside `try`: `cp -R` of the x64 bundle
into the scratch dir and classification of both trees (117-124); the parity
check (126-143); the plain-file SHA comparison reading both inputs (145-159);
the Mach-O loop reading both sides and fusing into the scratch copy
(160-207); the loose-tree or asar resource stage reading the arm64 input and
rewriting the scratch copy (215-339); `computeIntegrityData` over the scratch
copy (341); the plist loop reading both inputs and writing merged plists into
the scratch copy (343-368); the snapshot copies (370-376); `mkdirp` of the
output parent and the `mv` promote (378-380); and the `finally` removal of
the scratch dir on every path that created it (383-385). -/
def makeUniversalRun (p : RunParams) : List FsOp × RunOutcome :=
  if p.isDarwin = false then ([], .errored "platform")
  else if p.pathsAbsolute = false then ([], .errored "paths")
  else if p.outExists && !p.force then ([], .errored "outExists")
  else
    let validateOps :=
      (if p.outExists then [FsOp.remove .outPath] else []) ++
        [FsOp.read .x64In, FsOp.read .arm64In]
    if !p.modesMatch then (validateOps, .errored "modeMismatch")
    else
      let body : List FsOp × RunOutcome :=
        let ops0 := [FsOp.read .x64In, FsOp.write .tmpDir, FsOp.read .tmpDir,
          FsOp.read .arm64In]
        if !p.parityOk then (ops0, .errored "parity")
        else
          let ops1 := ops0 ++ [FsOp.read .x64In, FsOp.read .arm64In]
          if !p.plainOk then (ops1, .errored "plainMismatch")
          else
            let ops2 := ops1 ++ [FsOp.read .tmpDir, FsOp.read .arm64In,
              FsOp.write .tmpDir]
            if !p.machoOk then (ops2, .errored "macho")
            else
              let ops3 := ops2 ++ [FsOp.read .tmpDir, FsOp.read .arm64In,
                FsOp.write .tmpDir]
              if !p.resourceOk then (ops3, .errored "resources")
              else
                let ops4 := ops3 ++ [FsOp.read .tmpDir, FsOp.read .x64In,
                  FsOp.read .arm64In]
                if !p.plistOk then (ops4, .errored "plistMismatch")
                else
                  (ops4 ++ [FsOp.write .tmpDir, FsOp.read .arm64In,
                    FsOp.write .tmpDir, FsOp.write .outParent,
                    FsOp.write .outPath], .ok)
      (validateOps ++ [FsOp.write .tmpDir] ++ body.1 ++ [FsOp.remove .tmpDir], body.2)

/-! ## Helper lemmas -/

/-- Nonemptiness of a filtered-and-projected list of files. -/
theorem filterMapNonempty (l : List AppFile) (q : AppFile → Bool) :
    ((l.filter q).map (fun f => f.relativePath) ≠ []) ↔ ∃ f ∈ l, q f = true := by
  induction l with
  | nil => simp
  | cons a as ih =>
    by_cases hq : q a
    · simp [List.filter_cons, hq]
    · simp only [List.filter_cons, hq, Bool.false_eq_true, if_false, ih, List.mem_cons]
      constructor
      · rintro ⟨f, hf, h⟩; exact ⟨f, Or.inr hf, h⟩
      · rintro ⟨f, hf | hf, h⟩
        · subst hf; simp_all
        · exact ⟨f, hf, h⟩

/-- `checkSingleArch` branches on `coveredBy`. -/
theorem checkSingleArchEq (mm : String → String → Bool) (n p : String)
    (al : Option String) :
    checkSingleArch mm n p al =
      if coveredBy mm al p then .ok () else .error (.uncovered n p) := by
  cases al with
  | none => rfl
  | some g => by_cases h : mm p g <;> simp [checkSingleArch, coveredBy, h]

/-- When the unique-file scan fails, the reported error names the scanned
archive and one of its entries that is missing from the other archive and not
covered by the allow-list. -/
theorem checkUniques_error_char (mm : String → String → Bool) (n : String)
    (al : Option String) (other : Archive) :
    ∀ (l : List AsarEntry) (err : MergeError), checkUniques mm n al other l = .error err →
      ∃ e ∈ l, hasPath other e.path = false ∧ coveredBy mm al e.path = false ∧
        err = .uncovered n e.path := by
  intro l
  induction l with
  | nil => intro err h; simp [checkUniques] at h
  | cons e rest ih =>
    intro err h
    rw [checkUniques] at h
    by_cases hp : hasPath other e.path = true
    · rw [if_pos hp] at h
      obtain ⟨f, hf, h1, h2, h3⟩ := ih err h
      exact ⟨f, List.mem_cons_of_mem _ hf, h1, h2, h3⟩
    · rw [if_neg hp] at h
      rw [Bool.not_eq_true] at hp
      rw [checkSingleArchEq] at h
      by_cases hc : coveredBy mm al e.path = true
      · simp only [hc, if_true] at h
        cases hrest : checkUniques mm n al other rest with
        | error err2 =>
          rw [hrest] at h
          simp [Except.map] at h
          obtain ⟨f, hf, h1, h2, h3⟩ := ih err2 hrest
          exact ⟨f, List.mem_cons_of_mem _ hf, h1, h2, by rw [← h, h3]⟩
        | ok u => rw [hrest] at h; simp [Except.map] at h
      · rw [Bool.not_eq_true] at hc
        simp only [hc, Bool.false_eq_true, if_false] at h
        refine ⟨e, List.mem_cons_self _ _, hp, hc, ?_⟩
        cases h
        rfl

/-- An uncovered unique entry makes the unique-file scan fail. -/
theorem checkUniques_error_exists (mm : String → String → Bool) (n : String)
    (al : Option String) (other : Archive) :
    ∀ (l : List AsarEntry),
      (∃ e ∈ l, hasPath other e.path = false ∧ coveredBy mm al e.path = false) →
      ∃ err, checkUniques mm n al other l = .error err := by
  intro l
  induction l with
  | nil => rintro ⟨e, he, -⟩; simp at he
  | cons e rest ih =>
    rintro ⟨f, hf, h1, h2⟩
    rcases List.mem_cons.1 hf with hfeq | hfr
    · subst hfeq
      rw [checkUniques, if_neg (by simp [h1]), checkSingleArchEq]
      simp only [h2, Bool.false_eq_true, if_false]
      exact ⟨.uncovered n f.path, rfl⟩
    · by_cases hp : hasPath other e.path = true
      · rw [checkUniques, if_pos hp]
        exact ih ⟨f, hfr, h1, h2⟩
      · rw [checkUniques, if_neg hp, checkSingleArchEq]
        by_cases hc : coveredBy mm al e.path = true
        · simp only [hc, if_true]
          obtain ⟨err, herr⟩ := ih ⟨f, hfr, h1, h2⟩
          rw [herr]
          exact ⟨err, rfl⟩
        · simp only [Bool.not_eq_true] at hc
          simp only [hc, Bool.false_eq_true, if_false]
          exact ⟨.uncovered n e.path, rfl⟩

/-- When the unique-file scan succeeds, every unique entry was covered. -/
theorem checkUniques_ok_covered (mm : String → String → Bool) (n : String)
    (al : Option String) (other : Archive) :
    ∀ (l : List AsarEntry) (u : List AsarEntry), checkUniques mm n al other l = .ok u →
      ∀ e ∈ l, hasPath other e.path = false → coveredBy mm al e.path = true := by
  intro l
  induction l with
  | nil => intro u h e he; simp at he
  | cons e rest ih =>
    intro u h f hf hfp
    rcases List.mem_cons.1 hf with hfeq | hfr
    · subst hfeq
      rw [checkUniques, if_neg (by simp [hfp]), checkSingleArchEq] at h
      by_cases hc : coveredBy mm al f.path = true
      · exact hc
      · simp only [Bool.not_eq_true] at hc
        simp [hc] at h
    · by_cases hp : hasPath other e.path = true
      · rw [checkUniques, if_pos hp] at h
        exact ih u h f hfr hfp
      · rw [checkUniques, if_neg hp, checkSingleArchEq] at h
        by_cases hc : coveredBy mm al e.path = true
        · simp only [hc, if_true] at h
          cases hrest : checkUniques mm n al other rest with
          | error err => rw [hrest] at h; simp [Except.map] at h
          | ok u2 => exact ih u2 hrest f hfr hfp
        · simp only [Bool.not_eq_true] at hc
          simp [hc] at h

/-- When every unique entry is covered, the unique-file scan returns exactly
the unique entries, in order. -/
theorem checkUniques_ok_char (mm : String → String → Bool) (n : String)
    (al : Option String) (other : Archive) :
    ∀ (l : List AsarEntry),
      (∀ e ∈ l, hasPath other e.path = false → coveredBy mm al e.path = true) →
      checkUniques mm n al other l = .ok (l.filter (fun e => !hasPath other e.path)) := by
  intro l
  induction l with
  | nil => intro _; simp [checkUniques]
  | cons e rest ih =>
    intro hyp
    have ihr := ih (fun f hf => hyp f (List.mem_cons_of_mem _ hf))
    by_cases hp : hasPath other e.path = true
    · rw [checkUniques, if_pos hp, ihr]
      simp [List.filter_cons, hp]
    · have hc := hyp e (List.mem_cons_self _ _) (by simpa using hp)
      have hp2 : hasPath other e.path = false := by simpa using hp
      rw [checkUniques, if_neg hp, checkSingleArchEq]
      simp only [hc, if_true, ihr, Except.map]
      simp [List.filter_cons, hp2]

/-- Fusing a binding does not change an entry's path. -/
theorem lipoEntry_path (lp : List Nat → List Nat → List Nat) (a : Archive)
    (b : String) (e : AsarEntry) : (lipoEntry lp a b e).path = e.path := by
  unfold lipoEntry
  by_cases hb : (e.path == b) = true
  · simp only [hb, if_true]
    cases findEntry a b <;> rfl
  · simp [hb]

/-- The fusion loop preserves which paths exist in the tree. -/
theorem hasPath_applyLipo (lp : List Nat → List Nat → List Nat) (a : Archive) :
    ∀ (bs : List String) (t : Archive) (p : String),
      hasPath (applyLipo lp a t bs) p = hasPath t p := by
  intro bs
  induction bs with
  | nil => intro t p; rfl
  | cons b rest ih =>
    intro t p
    have hstep : applyLipo lp a t (b :: rest) =
        applyLipo lp a (t.map (lipoEntry lp a b)) rest := rfl
    rw [hstep, ih]
    simp only [hasPath, List.any_map, Function.comp_def]
    have hfun : (fun e => (lipoEntry lp a b e).path == p) =
        (fun e : AsarEntry => e.path == p) :=
      funext fun e => by rw [lipoEntry_path]
    rw [hfun]

/-- Lookup after the JavaScript-object update of all bindings of one key. -/
theorem lookupOrd_updateAll (k : String) (v : Bool) (p : String) :
    ∀ m : List (String × Bool),
      lookupOrd (m.map (fun kv => if kv.1 == k then (k, v) else kv)) p =
        if p = k then (if m.any (fun kv => kv.1 == k) then some v else none)
        else lookupOrd m p := by
  intro m
  induction m with
  | nil => by_cases hpk : p = k <;> simp [lookupOrd, hpk]
  | cons kv rest ih =>
    rw [List.map_cons, List.any_cons]
    by_cases h1 : (kv.1 == k) = true
    · rw [if_pos h1]
      by_cases hpk : p = k
      · subst hpk
        rw [lookupOrd, if_pos (beq_self_eq_true p), if_pos rfl, if_pos (by rw [h1]; rfl)]
      · have hkp : ¬(((k, v) : String × Bool).1 == p) = true := by
          simp only [beq_iff_eq]
          exact fun h => hpk h.symm
        rw [lookupOrd, if_neg hkp, ih, if_neg hpk, if_neg hpk, lookupOrd]
        have hkvp : ¬(kv.1 == p) = true := by
          simp only [beq_iff_eq]
          intro h
          exact hpk (((beq_iff_eq.1 h1) ▸ h : k = p)).symm
        rw [if_neg hkvp]
    · rw [if_neg h1]
      by_cases hpk : p = k
      · subst hpk
        have hkvp : ¬(kv.1 == p) = true := fun h => h1 h
        rw [lookupOrd, if_neg hkvp, ih, if_pos rfl, if_pos rfl]
        have h1f : (kv.1 == p) = false := by rwa [Bool.not_eq_true] at h1
        rw [h1f, Bool.false_or]
      · by_cases h2 : (kv.1 == p) = true
        · rw [lookupOrd, if_pos h2, if_neg hpk, lookupOrd, if_pos h2]
        · rw [lookupOrd, if_neg h2, ih, if_neg hpk, if_neg hpk, lookupOrd, if_neg h2]

/-- Lookup after appending a fresh binding. -/
theorem lookupOrd_append_single (k : String) (v : Bool) (p : String) :
    ∀ m : List (String × Bool),
      lookupOrd (m ++ [(k, v)]) p =
        match lookupOrd m p with
        | some w => some w
        | none => if k == p then some v else none := by
  intro m
  induction m with
  | nil => simp [lookupOrd]
  | cons kv rest ih =>
    rw [List.cons_append, lookupOrd, lookupOrd]
    by_cases hk : (kv.1 == p) = true
    · simp [hk]
    · rw [if_neg hk, if_neg hk]
      exact ih

/-- A key that no binding carries looks up to `none`. -/
theorem lookupOrd_none_of_absent (p : String) :
    ∀ m : List (String × Bool), m.any (fun kv => kv.1 == p) = false →
      lookupOrd m p = none := by
  intro m
  induction m with
  | nil => intro _; rfl
  | cons kv rest ih =>
    intro h
    simp only [List.any_cons, Bool.or_eq_false_iff] at h
    rw [lookupOrd, if_neg (by simp [h.1]), ih h.2]

/-- The JavaScript object assignment, observed through lookup. -/
theorem lookupOrd_orderingInsert (m : List (String × Bool)) (k : String) (v : Bool)
    (p : String) :
    lookupOrd (orderingInsert m k v) p = if p = k then some v else lookupOrd m p := by
  unfold orderingInsert
  by_cases hm : (m.any (fun kv => kv.1 == k)) = true
  · rw [if_pos hm, lookupOrd_updateAll]
    by_cases hpk : p = k <;> simp [hpk, hm]
  · rw [if_neg hm, lookupOrd_append_single]
    rw [Bool.not_eq_true] at hm
    by_cases hpk : p = k
    · subst hpk
      rw [lookupOrd_none_of_absent p m hm]
      simp
    · have hne : ¬(k == p) = true := by
        simp only [beq_iff_eq]
        exact fun h => hpk h.symm
      cases hl : lookupOrd m p <;> simp [hl, hpk, hne]

/-- Presence of a key agrees with lookup success. -/
theorem anyKey_eq_isSome (p : String) :
    ∀ m : List (String × Bool), anyKey m p = (lookupOrd m p).isSome := by
  intro m
  induction m with
  | nil => rfl
  | cons kv rest ih =>
    rw [anyKey, lookupOrd]
    by_cases hk : (kv.1 == p) = true
    · simp [hk]
    · simp only [if_neg hk]
      have h1f : (kv.1 == p) = false := by rwa [Bool.not_eq_true] at hk
      rw [h1f, Bool.false_or]
      exact ih

/-- Lookup in the map built from one archive: the archive's last non-directory
entry with the key's path wins; absent keys fall through to the initial map. -/
theorem lookupOrd_buildUnpacked (p : String) :
    ∀ (a : Archive) (m : List (String × Bool)),
      lookupOrd (buildUnpacked a m) p =
        match a.reverse.find? (fun e => !e.isDir && e.path == p) with
        | some e => some e.unpacked
        | none => lookupOrd m p := by
  intro a
  induction a with
  | nil => intro m; simp [buildUnpacked]
  | cons e rest ih =>
    intro m
    have hstep : buildUnpacked (e :: rest) m =
        buildUnpacked rest (if e.isDir then m else orderingInsert m e.path e.unpacked) := by
      simp [buildUnpacked]
    rw [hstep, ih, List.reverse_cons, List.find?_append]
    cases hf : rest.reverse.find? (fun x => !x.isDir && x.path == p) with
    | some x => simp [Option.or]
    | none =>
      simp only [Option.none_or]
      by_cases hd : e.isDir
      · simp [hd, List.find?]
      · by_cases hpp : (e.path == p) = true
        · have hpe : p = e.path := (beq_iff_eq.1 hpp).symm
          simp [hd, hpp, List.find?, lookupOrd_orderingInsert, hpe]
        · have hne : p ≠ e.path := fun h => hpp (by simp [h])
          simp [hd, hpp, List.find?, lookupOrd_orderingInsert, hne]

/-! ## Claim theorems -/

/-- Claim C1 (code bug): `computeIntegrityData` records, for each
`ArchiveCode` file under `Resources`, the hex digest of the archive's FULL
content bytes (`sha(from)` at src/integrity.ts line 78), not the digest of
its raw manifest header bytes that the claim, the spec, the declared
`AsarIntegrity`/`HeaderHash` types (src/integrity.ts 14-21) and the tested
`generateAsarIntegrity` helper (src/asar-utils.ts 52-60) all prescribe.  At
an archive whose header bytes are `[1]` and whose content bytes are `[1, 2]`,
with the stand-in digest function mapping a byte list to the decimal string
of its length, the recorded value is the content digest and differs from the
header digest. -/
theorem C1_integrity_records_full_content_hash :
    computeIntegrityData (fun l => toString l.length) [⟨"app.asar", "data", [1], [1, 2]⟩] =
      [("Resources/app.asar", "2")] ∧
    (generateAsarIntegrity (fun l => toString l.length)
        ⟨"app.asar", "data", [1], [1, 2]⟩).hash = "1" ∧
    ("2" : String) ≠ "1" := by decide

/-- Claim C2 (code bug): the `injectAsarIntegrity` decision of
src/index.ts 360-362 (and src/integrity.ts 46-48) injects the integrity map
exactly when the plist's relative path MATCHES `infoPlistsToIgnore` (the `!`
on the `minimatch` call is missing), the opposite of the option's documented
meaning and of the claim.  With `minimatch` instantiated to literal path
equality (faithful for a glob-free pattern): the plist at the matching path
is written WITH the integrity key, and a plist at a non-matching path is
written WITHOUT it. -/
theorem C2_integrity_injected_into_matching_plists :
    writtenPlist (fun a b => a == b) (some "SubApp-1.app/Contents/Info.plist")
        "SubApp-1.app/Contents/Info.plist" [("CFBundleName", "\"Sub\"")] "integ" =
      [("CFBundleName", "\"Sub\""), (integrityKey, "integ")] ∧
    writtenPlist (fun a b => a == b) (some "SubApp-1.app/Contents/Info.plist")
        "Contents/Info.plist" [("CFBundleName", "\"Main\"")] "integ" =
      [("CFBundleName", "\"Main\"")] := by decide

/-- Claim C3, counterexample: the claim includes `SNAPSHOT` among the types
whose one-sided presence must fail the parity check, but `dupedFiles`
(src/index.ts 76-77) excludes `SNAPSHOT` (and `APP_CODE`), so a snapshot file
present in only the x64 bundle does not trigger the failure. -/
theorem C3_counterexample_snapshot_one_sided :
    ¬ (parityFails [⟨"snap.bin", AppFileType.SNAPSHOT⟩] [] = true ↔
        ∃ f ∈ [(⟨"snap.bin", AppFileType.SNAPSHOT⟩ : AppFile)],
          (f.type = AppFileType.PLAIN ∨ f.type = AppFileType.MACHO ∨
            f.type = AppFileType.INFO_PLIST ∨ f.type = AppFileType.SNAPSHOT) ∧
          hasRelPath [] f.relativePath = false) := by decide

/-- Claim C3, amended: the structural parity check fails exactly when some
path of classified type `PLAIN`, `MACHO`, or `INFO_PLIST` is present (under
any type) in exactly one of the two file lists; `SNAPSHOT` and `APP_CODE`
paths are exempt (src/index.ts 76-77, 126-143).  On failure both one-sided
lists are reported (`checkParity`). -/
theorem C3_parity_check_characterization (x64Files arm64Files : List AppFile) :
    parityFails x64Files arm64Files = true ↔
      (∃ f ∈ x64Files,
        (f.type = AppFileType.PLAIN ∨ f.type = AppFileType.MACHO ∨
          f.type = AppFileType.INFO_PLIST) ∧
        hasRelPath arm64Files f.relativePath = false) ∨
      (∃ f ∈ arm64Files,
        (f.type = AppFileType.PLAIN ∨ f.type = AppFileType.MACHO ∨
          f.type = AppFileType.INFO_PLIST) ∧
        hasRelPath x64Files f.relativePath = false) := by
  have htype : ∀ t : AppFileType,
      ((t != AppFileType.SNAPSHOT && t != AppFileType.APP_CODE) = true) ↔
        (t = AppFileType.PLAIN ∨ t = AppFileType.MACHO ∨ t = AppFileType.INFO_PLIST) := by
    intro t; cases t <;> decide
  have hgen : ∀ (l r : List AppFile), (uniqueToX64 l r ≠ []) ↔
      ∃ f ∈ l,
        (f.type = AppFileType.PLAIN ∨ f.type = AppFileType.MACHO ∨
          f.type = AppFileType.INFO_PLIST) ∧ hasRelPath r f.relativePath = false := by
    intro l r
    rw [uniqueToX64, filterMapNonempty]
    constructor
    · rintro ⟨f, hf, hq⟩
      rw [dupedFiles, List.mem_filter] at hf
      refine ⟨f, hf.1, (htype f.type).1 hf.2, ?_⟩
      simpa using hq
    · rintro ⟨f, hf, ht, hun⟩
      refine ⟨f, ?_, by simpa using hun⟩
      rw [dupedFiles, List.mem_filter]
      exact ⟨hf, (htype f.type).2 ht⟩
  have hswap : ∀ (l r : List AppFile), uniqueToArm64 l r = uniqueToX64 r l := fun _ _ => rfl
  rw [parityFails, Bool.or_eq_true, bne_iff_ne, bne_iff_ne, hswap, hgen, hgen]

/-- Claim C4, counterexample: in the loose Mach-O merge step of
src/index.ts 160-207 there is no thin-magic check: for a pair whose two sides
are not both universal, whose contents (hence hashes) differ, and whose x64
side carries the UNIVERSAL magic rather than a thin Mach-O magic, the code
invokes `lipo` instead of failing. -/
theorem C4_counterexample_loose_step_runs_lipo :
    machOStep (fun _ _ => false) (fun l => toString (l.headD 0)) none
        "Contents/MacOS/helper" [0xca, 0xfe, 0xba, 0xbe] [0xcf, 0xfa, 0xed, 0xfe] =
      MachOAction.runLipo "Contents/MacOS/helper" ∧
    (isUniversalMachO [0xca, 0xfe, 0xba, 0xbe] &&
      isUniversalMachO [0xcf, 0xfa, 0xed, 0xfe]) = false ∧
    MACHO_MAGIC.contains (readUInt32LE [0xca, 0xfe, 0xba, 0xbe]) = false ∧
    ([0xca, 0xfe, 0xba, 0xbe] : List Nat) ≠ [0xcf, 0xfa, 0xed, 0xfe] := by decide

/-- Claim C4, amended: the thin-Mach-O-magic requirement lives in the ASAR
merge (src/asar-utils.ts 126-156), not in the loose Mach-O step.  (1) In the
loose step, any `MACHO` pair that is not both-universal and whose hashes
differ goes straight to `lipo`, with no magic check.  (2) In `scanCommon`,
every recorded binding's x64 side carries a thin Mach-O magic number, so the
fusion tool is invoked only on such entries.  (3) In `scanCommon`, a common
non-directory entry with differing content, not both-universal, whose x64
side lacks a thin magic number forces the non-reconcilable error. -/
theorem C4_thin_magic_check_lives_in_asar_merge :
    (∀ (mm : String → String → Bool) (hashF : List Nat → String) (xa : Option String)
        (rel : String) (c64 carm : List Nat),
        (isUniversalMachO c64 && isUniversalMachO carm) = false →
        hashF c64 ≠ hashF carm →
        machOStep mm hashF xa rel c64 carm = .runLipo rel) ∧
    (∀ (arm64 : Archive) (l : List AsarEntry) (bs : List String),
        scanCommon arm64 l = .ok bs →
        ∀ p ∈ bs, ∃ e ∈ l, e.path = p ∧
          MACHO_MAGIC.contains (readUInt32LE e.content) = true) ∧
    (∀ (arm64 : Archive) (l : List AsarEntry),
        (∃ e ∈ l, ∃ a, findEntry arm64 e.path = some a ∧ e.isDir = false ∧
          e.content ≠ a.content ∧
          (isUniversalMachO e.content && isUniversalMachO a.content) = false ∧
          MACHO_MAGIC.contains (readUInt32LE e.content) = false) →
        ∃ q, scanCommon arm64 l = .error (.nonMacho q)) := by
  refine ⟨?_, ?_, ?_⟩
  · intro mm hashF xa rel c64 carm huniv hneq
    simp [machOStep, huniv, hneq]
  · intro arm64 l
    induction l with
    | nil =>
      intro bs h p hp
      simp [scanCommon] at h
      subst h
      simp at hp
    | cons e rest ih =>
      intro bs h p hp
      rw [scanCommon] at h
      cases hfe : findEntry arm64 e.path with
      | none =>
        simp only [hfe] at h
        obtain ⟨f, hf, hrest⟩ := ih bs h p hp
        exact ⟨f, List.mem_cons_of_mem _ hf, hrest⟩
      | some a =>
        simp only [hfe] at h
        by_cases hd : e.isDir
        · simp only [hd, if_true] at h
          obtain ⟨f, hf, hrest⟩ := ih bs h p hp
          exact ⟨f, List.mem_cons_of_mem _ hf, hrest⟩
        · simp only [hd, if_false, Bool.false_eq_true] at h
          by_cases hc : (e.content == a.content) = true
          · simp only [hc, if_true] at h
            obtain ⟨f, hf, hrest⟩ := ih bs h p hp
            exact ⟨f, List.mem_cons_of_mem _ hf, hrest⟩
          · simp only [hc, if_false, Bool.false_eq_true] at h
            by_cases hu : (isUniversalMachO e.content && isUniversalMachO a.content) = true
            · simp only [hu, if_true] at h
              obtain ⟨f, hf, hrest⟩ := ih bs h p hp
              exact ⟨f, List.mem_cons_of_mem _ hf, hrest⟩
            · simp only [hu, if_false, Bool.false_eq_true] at h
              by_cases hmag : MACHO_MAGIC.contains (readUInt32LE e.content) = true
              · simp only [hmag, if_true] at h
                cases hrest : scanCommon arm64 rest with
                | error err => rw [hrest] at h; simp [Except.map] at h
                | ok bs2 =>
                  rw [hrest] at h
                  simp [Except.map] at h
                  subst h
                  rcases List.mem_cons.1 hp with hpe | hpb
                  · exact ⟨e, List.mem_cons_self _ _, hpe.symm, hmag⟩
                  · obtain ⟨f, hf, hrest2⟩ := ih bs2 hrest p hpb
                    exact ⟨f, List.mem_cons_of_mem _ hf, hrest2⟩
              · simp only [hmag, if_false, Bool.false_eq_true] at h
                simp at h
  · intro arm64 l
    induction l with
    | nil => rintro ⟨e, he, -⟩; simp at he
    | cons e rest ih =>
      rintro ⟨f, hf, a, hfe, hdir, hne, huniv, hmag⟩
      rcases List.mem_cons.1 hf with hfeq | hfr
      · subst hfeq
        refine ⟨f.path, ?_⟩
        rw [scanCommon]
        simp only [hfe, hdir, hmag, huniv, if_false, Bool.false_eq_true]
        rw [if_neg (by simpa using hne)]
      · obtain ⟨q, hq⟩ := ih ⟨f, hfr, a, hfe, hdir, hne, huniv, hmag⟩
        rw [scanCommon]
        cases hfe2 : findEntry arm64 e.path with
        | none => exact ⟨q, hq⟩
        | some a2 =>
          simp only
          by_cases hd2 : e.isDir
          · simp only [hd2, if_true]; exact ⟨q, hq⟩
          · simp only [hd2, if_false, Bool.false_eq_true]
            by_cases hc2 : (e.content == a2.content) = true
            · simp only [hc2, if_true]; exact ⟨q, hq⟩
            · simp only [hc2, if_false, Bool.false_eq_true]
              by_cases hu2 : (isUniversalMachO e.content && isUniversalMachO a2.content) = true
              · simp only [hu2, if_true]; exact ⟨q, hq⟩
              · simp only [hu2, if_false, Bool.false_eq_true]
                by_cases hm2 : MACHO_MAGIC.contains (readUInt32LE e.content) = true
                · simp only [hm2, if_true, hq]; exact ⟨q, rfl⟩
                · simp only [hm2, if_false, Bool.false_eq_true]; exact ⟨e.path, rfl⟩

/-- Witness for C4: evaluates each conjunct at concrete inputs: a differing
non-universal pair goes to `lipo`; a binding recorded by `scanCommon` has a
thin x64 magic; a differing non-Mach-O common entry yields the error. -/
theorem C4_witness :
    machOStep (fun _ _ => false) (fun l => toString (l.headD 0)) none "b"
        [0xcf, 0xfa, 0xed, 0xfe] [0xce, 0xfa, 0xed, 0xfe] = MachOAction.runLipo "b" ∧
    (∃ e ∈ ([⟨"m.node", false, false, [0xcf, 0xfa, 0xed, 0xfe]⟩] : List AsarEntry),
        e.path = "m.node" ∧ MACHO_MAGIC.contains (readUInt32LE e.content) = true) ∧
    (∃ q, scanCommon [⟨"d.dat", false, false, [9, 9, 9, 9]⟩]
        [⟨"d.dat", false, false, [1, 2, 3, 4]⟩] = .error (.nonMacho q)) := by
  refine ⟨?_, ?_, ?_⟩
  · exact C4_thin_magic_check_lives_in_asar_merge.1 _ _ _ _ _ _ (by decide) (by decide)
  · exact C4_thin_magic_check_lives_in_asar_merge.2.1
      [⟨"m.node", false, false, [0xce, 0xfa, 0xed, 0xfe]⟩]
      [⟨"m.node", false, false, [0xcf, 0xfa, 0xed, 0xfe]⟩]
      ["m.node"] rfl "m.node" (by decide)
  · exact C4_thin_magic_check_lives_in_asar_merge.2.2
      [⟨"d.dat", false, false, [9, 9, 9, 9]⟩] [⟨"d.dat", false, false, [1, 2, 3, 4]⟩]
      ⟨⟨"d.dat", false, false, [1, 2, 3, 4]⟩, by decide,
        ⟨"d.dat", false, false, [9, 9, 9, 9]⟩, rfl, rfl, by decide, by decide, by decide⟩

/-- Claim C5: during `mergeASARs` (src/asar-utils.ts 79-200), an entry
present in exactly one archive that is not covered by `singleArchFiles`
(either because no pattern was given or because `minimatch` rejects it, see
`coveredBy`) makes the merge fail with an error naming the owning archive and
an offending unique uncovered path; and when every unique entry is covered
(and the common-entry scan succeeds), the merge proceeds and every
arm64-unique entry's path is contained in the re-packed output tree. -/
theorem C5_unique_entries_against_allowlist (mm : String → String → Bool)
    (lp : List Nat → List Nat → List Nat) (xn an : String) (x64 arm64 : Archive)
    (allow : Option String) :
    (((∃ e ∈ x64, hasPath arm64 e.path = false ∧ coveredBy mm allow e.path = false) ∨
      (∃ e ∈ arm64, hasPath x64 e.path = false ∧ coveredBy mm allow e.path = false)) →
      ∃ a f, mergeASARs mm lp xn an x64 arm64 allow = .error (.uncovered a f) ∧
        ((a = xn ∧ ∃ e ∈ x64, e.path = f ∧ hasPath arm64 e.path = false ∧
            coveredBy mm allow f = false) ∨
         (a = an ∧ ∃ e ∈ arm64, e.path = f ∧ hasPath x64 e.path = false ∧
            coveredBy mm allow f = false))) ∧
    ((∀ e ∈ x64, hasPath arm64 e.path = false → coveredBy mm allow e.path = true) →
     (∀ e ∈ arm64, hasPath x64 e.path = false → coveredBy mm allow e.path = true) →
     ∀ bs, scanCommon arm64 x64 = .ok bs →
       ∃ r, mergeASARs mm lp xn an x64 arm64 allow = .ok r ∧
         ∀ e ∈ arm64, hasPath x64 e.path = false → hasPath r.output e.path = true) := by
  constructor
  · intro hdisj
    cases hx : checkUniques mm xn allow arm64 x64 with
    | error err =>
      obtain ⟨e, he, h1, h2, h3⟩ := checkUniques_error_char mm xn allow arm64 x64 err hx
      refine ⟨xn, e.path, ?_, Or.inl ⟨rfl, e, he, rfl, h1, h2⟩⟩
      simp only [mergeASARs, hx, h3]
    | ok u =>
      have hxcov := checkUniques_ok_covered mm xn allow arm64 x64 u hx
      rcases hdisj with ⟨e, he, h1, h2⟩ | ⟨e, he, h1, h2⟩
      · exact absurd (hxcov e he h1) (by simp [h2])
      · obtain ⟨err, ha⟩ := checkUniques_error_exists mm an allow x64 arm64 ⟨e, he, h1, h2⟩
        obtain ⟨f2, hf2, k1, k2, k3⟩ := checkUniques_error_char mm an allow x64 arm64 err ha
        refine ⟨an, f2.path, ?_, Or.inr ⟨rfl, f2, hf2, rfl, k1, k2⟩⟩
        simp only [mergeASARs, hx, ha, k3]
  · intro hcx hca bs hscan
    have hx := checkUniques_ok_char mm xn allow arm64 x64 hcx
    have ha := checkUniques_ok_char mm an allow x64 arm64 hca
    refine ⟨⟨applyLipo lp arm64 (x64 ++ arm64.filter (fun e => !hasPath x64 e.path)) bs,
      bs, generateOrderingConfig x64 arm64⟩, ?_, ?_⟩
    · simp only [mergeASARs, hx, ha, hscan]
    · intro e he hep
      show hasPath _ e.path = true
      rw [hasPath_applyLipo]
      have hmem : e ∈ arm64.filter (fun f => !hasPath x64 f.path) :=
        List.mem_filter.2 ⟨he, by simp [hep]⟩
      simp only [hasPath, List.any_append, Bool.or_eq_true]
      exact Or.inr (List.any_eq_true.2 ⟨e, hmem, by simp⟩)

/-- Witness for C5: a merge of two concrete archives in which
"lib/arm-only.node" exists only in the arm64 archive and is covered by the
allow-list succeeds, and the output contains that path; `minimatch` is
instantiated to literal path equality. -/
theorem C5_witness :
    ∃ r, mergeASARs (fun a b => a == b) (fun a _ => a) "x64.asar" "arm64.asar"
        [⟨"lib/common.txt", false, false, [1]⟩]
        [⟨"lib/common.txt", false, false, [1]⟩, ⟨"lib/arm-only.node", false, false, [2]⟩]
        (some "lib/arm-only.node") = .ok r ∧
      hasPath r.output "lib/arm-only.node" = true := by
  obtain ⟨r, hr, hall⟩ :=
    (C5_unique_entries_against_allowlist (fun a b => a == b) (fun a _ => a)
        "x64.asar" "arm64.asar"
        [⟨"lib/common.txt", false, false, [1]⟩]
        [⟨"lib/common.txt", false, false, [1]⟩, ⟨"lib/arm-only.node", false, false, [2]⟩]
        (some "lib/arm-only.node")).2
      (by decide) (by decide) [] rfl
  exact ⟨r, hr, hall ⟨"lib/arm-only.node", false, false, [2]⟩ (by decide) (by decide)⟩

/-- Claim C6, counterexample: the ordering manifest built by
`generateOrderingConfig` (src/asar-utils.ts 207-233) follows the archives'
listing order, not a sort by path: two file entries listed as "b" then "a"
produce the ordering keys ["b", "a"], which is not sorted. -/
theorem C6_counterexample_ordering_not_sorted :
    (generateOrderingConfig
        [⟨"b", false, false, []⟩, ⟨"a", false, false, []⟩]
        [⟨"b", false, false, []⟩, ⟨"a", false, false, []⟩]).map Prod.fst = ["b", "a"] ∧
    strLe "b" "a" = false ∧ strLe "a" "b" = true := by decide

/-- Claim C6, amended: `mergeASARs` re-packs with an explicit ordering
manifest that contains a key exactly for every non-directory entry of either
source archive (in listing first-occurrence order, not sorted by path), and
each key's unpack flag is the one of the arm64 archive's last matching
non-directory entry when there is one, else the x64 archive's; being a pure
function of the listings, the manifest (and with it the modelled merge) is
identical across runs on identical inputs. -/
theorem C6_ordering_characterization (x64 arm64 : Archive) (p : String) :
    (anyKey (generateOrderingConfig x64 arm64) p = true ↔
      (∃ e ∈ x64, e.isDir = false ∧ e.path = p) ∨
      (∃ e ∈ arm64, e.isDir = false ∧ e.path = p)) ∧
    lookupOrd (generateOrderingConfig x64 arm64) p =
      (match arm64.reverse.find? (fun e => !e.isDir && e.path == p) with
       | some e => some e.unpacked
       | none =>
         (x64.reverse.find? (fun e => !e.isDir && e.path == p)).map
           (fun e => e.unpacked)) := by
  have hlook : lookupOrd (generateOrderingConfig x64 arm64) p =
      (match arm64.reverse.find? (fun e => !e.isDir && e.path == p) with
       | some e => some e.unpacked
       | none =>
         (x64.reverse.find? (fun e => !e.isDir && e.path == p)).map
           (fun e => e.unpacked)) := by
    rw [generateOrderingConfig, lookupOrd_buildUnpacked, lookupOrd_buildUnpacked]
    cases arm64.reverse.find? (fun e => !e.isDir && e.path == p) <;>
      cases x64.reverse.find? (fun e => !e.isDir && e.path == p) <;>
      simp [lookupOrd]
  refine ⟨?_, hlook⟩
  rw [anyKey_eq_isSome, hlook]
  cases harm : arm64.reverse.find? (fun e => !e.isDir && e.path == p) with
  | some x =>
    have hmem : x ∈ arm64 := List.mem_reverse.1 (List.mem_of_find?_eq_some harm)
    have hpred := List.find?_some harm
    simp only [Bool.and_eq_true, beq_iff_eq] at hpred
    have hdir : x.isDir = false := by
      have hnot := hpred.1
      cases hdd : x.isDir
      · rfl
      · rw [hdd] at hnot; simp at hnot
    constructor
    · intro _
      exact Or.inr ⟨x, hmem, hdir, hpred.2⟩
    · intro _
      rfl
  | none =>
    cases hx : x64.reverse.find? (fun e => !e.isDir && e.path == p) with
    | some y =>
      have hmem : y ∈ x64 := List.mem_reverse.1 (List.mem_of_find?_eq_some hx)
      have hpred := List.find?_some hx
      simp only [Bool.and_eq_true, beq_iff_eq] at hpred
      have hdir : y.isDir = false := by
        have hnot := hpred.1
        cases hdd : y.isDir
        · rfl
        · rw [hdd] at hnot; simp at hnot
      constructor
      · intro _
        exact Or.inl ⟨y, hmem, hdir, hpred.2⟩
      · intro _
        rfl
    | none =>
      simp only [Option.map_none', Option.isSome_none]
      constructor
      · intro h
        exact absurd h (by simp)
      · rintro (⟨e, he, hdir, hpath⟩ | ⟨e, he, hdir, hpath⟩)
        · have hnone := List.find?_eq_none.1 hx e (List.mem_reverse.2 he)
          exact absurd (by simp [hdir, hpath]) hnone
        · have hnone := List.find?_eq_none.1 harm e (List.mem_reverse.2 he)
          exact absurd (by simp [hdir, hpath]) hnone

/-- Claim C7, counterexample: classification (src/file-utils.ts 38-39) tests
`p.includes("app.asar")`, not "ends in .asar": the unpacked native module
path below is classified `APP_CODE` although it does not end in ".asar". -/
theorem C7_counterexample_unpacked_classified_app_code :
    ¬ (classifyFile "Contents/Resources/app.asar.unpacked/m.node" "data" =
          AppFileType.APP_CODE ↔
        strFinishesWith "Contents/Resources/app.asar.unpacked/m.node" ".asar" = true) := by
  decide

/-- Claim C7, amended: a regular file is classified `APP_CODE` exactly when
its path CONTAINS the substring "app.asar" (src/file-utils.ts line 38); this
rule takes precedence over the Mach-O sniff, ".bin", and "Info.plist" rules
(the iff holds whatever the sniff output); and a file matching none of the
four rules is classified `PLAIN`. -/
theorem C7_classification_characterization (p out : String) :
    (classifyFile p out = AppFileType.APP_CODE ↔ strContainsSub p "app.asar" = true) ∧
    (strContainsSub p "app.asar" = false → strBeginsWith out "Mach-O " = false →
      strFinishesWith p ".bin" = false → (baseName p == "Info.plist") = false →
      classifyFile p out = AppFileType.PLAIN) := by
  constructor
  · constructor
    · intro h
      by_contra hc
      rw [Bool.not_eq_true] at hc
      simp only [classifyFile, hc, Bool.false_eq_true, if_false] at h
      split at h <;> simp_all
      split at h <;> simp_all
      split at h <;> simp_all
    · intro h
      simp [classifyFile, h]
  · intro h1 h2 h3 h4
    simp [classifyFile, h1, h2, h3, h4]

/-- Witness for C7: a plain text file matching no rule is classified
`PLAIN`. -/
theorem C7_witness :
    classifyFile "Contents/Resources/data.txt" "ASCII text" = AppFileType.PLAIN :=
  (C7_classification_characterization "Contents/Resources/data.txt" "ASCII text").2
    (by decide) (by decide) (by decide) (by decide)

/-- Claim C8: with an existing output path and `force` unset, the run throws
during validation with an empty operation trace — before any read of either
input bundle; and in every run the only write to the output path is the
single promote (`mv`) operation, performed exactly in successful runs as the
last operation before the scratch-directory cleanup (src/index.ts 91-101,
378-385). -/
theorem C8_output_written_only_by_promote (p : RunParams) :
    (p.outExists = true → p.force = false →
      (makeUniversalRun p).1 = [] ∧ (makeUniversalRun p).2 ≠ .ok) ∧
    ((makeUniversalRun p).1.filter (fun op => op == FsOp.write .outPath) =
      if (makeUniversalRun p).2 = .ok then [FsOp.write .outPath] else []) ∧
    ((makeUniversalRun p).2 = .ok →
      (makeUniversalRun p).1.drop ((makeUniversalRun p).1.length - 2) =
        [FsOp.write .outPath, FsOp.remove .tmpDir]) := by
  obtain ⟨a, b, c, d, e, f, g, h, i, j⟩ := p
  revert a b c d e f g h i j
  decide

/-- Witness for C8: an existing output without `force` produces an empty
trace and an error; a fully successful run ends with the promote write
followed by the scratch cleanup. -/
theorem C8_witness :
    ((makeUniversalRun ⟨true, true, true, false, true, true, true, true, true, true⟩).1 = [] ∧
      (makeUniversalRun ⟨true, true, true, false, true, true, true, true, true, true⟩).2 ≠
        .ok) ∧
    (makeUniversalRun ⟨true, true, false, false, true, true, true, true, true, true⟩).1.drop
        ((makeUniversalRun
          ⟨true, true, false, false, true, true, true, true, true, true⟩).1.length - 2) =
      [FsOp.write .outPath, FsOp.remove .tmpDir] :=
  ⟨(C8_output_written_only_by_promote _).1 rfl rfl,
    (C8_output_written_only_by_promote _).2.2 rfl⟩

/-- Claim C9: the pre-merge Info.plist comparison (src/index.ts 348-358)
strips the integrity key and compares the two parsed documents through
`JSON.stringify`, which serializes keys in document order: two plists with
the same key/value bindings in a different document order fail the check
(the model `plistsMismatch` is exactly the condition under which
`makeUniversalApp` throws the plist-mismatch error). -/
theorem C9_plist_comparison_is_order_sensitive :
    plistsMismatch [("CFBundleName", "\"App\""), ("CFBundleVersion", "\"1\"")]
        [("CFBundleVersion", "\"1\""), ("CFBundleName", "\"App\"")] = true ∧
    (∀ kv : String × String,
      kv ∈ [("CFBundleName", "\"App\""), ("CFBundleVersion", "\"1\"")] ↔
        kv ∈ [("CFBundleVersion", "\"1\""), ("CFBundleName", "\"App\"")]) ∧
    [("CFBundleName", "\"App\""), ("CFBundleVersion", "\"1\"")] ≠
      [("CFBundleVersion", "\"1\""), ("CFBundleName", "\"App\"")] := by
  refine ⟨by decide, ?_, by decide⟩
  intro kv
  simp only [List.mem_cons, List.not_mem_nil, or_false]
  tauto

/-- Claim C10: with `force` set and an existing output, the first operation
of the trace removes the output path (during validation, before any other
filesystem operation); in any failed run no write to the output path ever
happens (so the deleted previous bundle is not restored and the path stays
non-existent); and no operation of any such run writes to or removes either
input bundle (src/index.ts 91-101, 381-385). -/
theorem C10_force_removes_output_and_never_restores (p : RunParams)
    (h1 : p.isDarwin = true) (h2 : p.pathsAbsolute = true)
    (h3 : p.outExists = true) (h4 : p.force = true) :
    (makeUniversalRun p).1.head? = some (FsOp.remove .outPath) ∧
    ((makeUniversalRun p).2 ≠ .ok →
      (makeUniversalRun p).1.filter (fun op => op == FsOp.write .outPath) = []) ∧
    (∀ op ∈ (makeUniversalRun p).1,
      op ≠ .write .x64In ∧ op ≠ .write .arm64In ∧ op ≠ .remove .x64In ∧
        op ≠ .remove .arm64In) := by
  obtain ⟨a, b, c, d, e, f, g, h, i, j⟩ := p
  subst h1 h2 h3 h4
  revert e f g h i j
  decide

/-- Witness for C10: a forced run over an existing output that fails at the
asar-mode comparison starts by removing the output and never writes it. -/
theorem C10_witness :
    (makeUniversalRun ⟨true, true, true, true, false, true, true, true, true, true⟩).1.head? =
      some (FsOp.remove .outPath) ∧
    (makeUniversalRun
        ⟨true, true, true, true, false, true, true, true, true, true⟩).1.filter
        (fun op => op == FsOp.write .outPath) = [] :=
  ⟨(C10_force_removes_output_and_never_restores _ rfl rfl rfl rfl).1,
    (C10_force_removes_output_and_never_restores _ rfl rfl rfl rfl).2.1 (by decide)⟩
